import Mathlib

/-!
# Verification of the Idealista scraper core (`idealista_scraper`)

Shallow embedding of the fetch-orchestration engine of the repository:

* `export.py`   — `normalize_listing_link` (canonical listing links);
* `fetcher.py`  — `fetch_html_with_retry`, `is_blocked_page`,
  the Selenium fetch path's constant-200 status;
* `parsers.py`  — `ListingCard` / `DetailListing` data model and
  `looks_like_listing_page` (its `parse_search_page` collaborator is an
  abstract pure oracle, per the spec's external-interface boundary);
* `orchestrator.py` — `_run_with_fetcher`: bootstrap on page 1, total-page
  and resume computation, the pagination loop with the retry-once /
  consecutive-block / duplicate-of-page-1 logic, dedup and record emission.

Python strings are modelled as `String` (scalar-value lists via `.data`);
Python `int` as `Int` (`Nat` where the source value is a count and
provably non-negative).  Side-effecting fetches are modelled by oracles
supplying the observable `(html, status)` results, and the embedded
orchestrator additionally returns a trace of the fetch operations it
performed, so that claims about "which pages are fetched" are statable.
-/

namespace Sevilla

/-! ## Python string primitives -/

/-- Python `str.strip()` whitespace class (ASCII whitespace; the embedding
models the ASCII fragment of Python's Unicode handling). -/
def isPySpace (c : Char) : Bool :=
  c = ' ' || c = '\t' || c = '\n' || c = '\x0b' || c = '\x0c' || c = '\r'

/-- Models `str.strip()` on a list of characters: drop whitespace at both ends. -/
def stripChars (l : List Char) : List Char :=
  (l.dropWhile isPySpace).rdropWhile isPySpace

/-- Python `str.lower()` (ASCII fragment). -/
def lowerChars (l : List Char) : List Char :=
  l.map Char.toLower

/-- Python substring test `needle in hay`. -/
def containsSub (needle : List Char) : List Char → Bool
  | [] => needle.isPrefixOf []
  | c :: rest => needle.isPrefixOf (c :: rest) || containsSub needle rest

theorem containsSub_iff (needle l : List Char) :
    containsSub needle l = true ↔ needle <:+: l := by
  induction l with
  | nil =>
    simp only [containsSub, List.isPrefixOf_iff_prefix]
    constructor
    · intro h; exact h.isInfix
    · intro h
      have hn : needle = [] := List.eq_nil_of_infix_nil h
      subst hn; exact List.nil_prefix
  | cons c rest ih =>
    simp only [containsSub, Bool.or_eq_true, List.isPrefixOf_iff_prefix, ih,
      List.infix_cons_iff]

theorem containsSub_mono {needle l : List Char} (m : List Char)
    (h : containsSub needle m = true) (hlm : m <:+: l) :
    containsSub needle l = true := by
  rw [containsSub_iff] at h ⊢
  exact h.trans hlm

/-- The stripped list `stripChars l` is an infix of `l`. -/
theorem stripChars_within (l : List Char) : stripChars l <:+: l := by
  unfold stripChars
  have h1 := List.rdropWhile_prefix isPySpace (l.dropWhile isPySpace)
  exact (h1.isInfix).trans (List.dropWhile_suffix _).isInfix

theorem stripChars_idem (l : List Char) : stripChars (stripChars l) = stripChars l := by
  unfold stripChars
  rcases h : (l.dropWhile isPySpace).rdropWhile isPySpace with _ | ⟨c, rest⟩
  · simp
  · -- head of the stripped list does not satisfy `isPySpace`, so the inner
    -- `dropWhile` is the identity; then `rdropWhile` is idempotent.
    have hpre : c :: rest <+: l.dropWhile isPySpace := h ▸ List.rdropWhile_prefix _ _
    obtain ⟨t, ht⟩ := hpre
    have hc : ¬ isPySpace c = true := by
      have := List.head_dropWhile_not isPySpace l
      rw [← ht] at this
      simpa using this (by simp [← ht])
    have hdw : List.dropWhile isPySpace (c :: rest) = c :: rest := by
      simp [List.dropWhile_cons, hc]
    rw [hdw, ← h, List.rdropWhile_idempotent]

/-! ## `normalize_listing_link` (export.py:129) -/

/-- The characters of `"/inmueble/"`, the listing-path marker. -/
def inmueblePat : List Char := "/inmueble/".data

/-- The characters of `"idealista"`. -/
def idealistaPat : List Char := "idealista".data

/-- Models `CANONICAL_LISTING_URL = "https://www.idealista.com/inmueble/"` (export.py:126). -/
def canonicalUrlChars : List Char := "https://www.idealista.com/inmueble/".data

/-- The first match of the regex `/inmueble/(\d+)/?` via `re.search`: scan left
to right; at the first position where `"/inmueble/"` occurs followed by a
digit, capture the maximal digit run (Python's `\d` modelled as ASCII digits). -/
def findInmuebleDigits : List Char → Option (List Char)
  | [] => none
  | c :: rest =>
    if inmueblePat.isPrefixOf (c :: rest) then
      match (c :: rest).drop 10 with
      | [] => findInmuebleDigits rest
      | d :: ds => if d.isDigit then some (d :: ds.takeWhile Char.isDigit)
                   else findInmuebleDigits rest
    else findInmuebleDigits rest

/-- The guard of `normalize_listing_link`:
`not url or "idealista" not in url.lower() or "/inmueble/" not in url`. -/
def normalizeGuard (l : List Char) : Bool :=
  l.isEmpty || !containsSub idealistaPat (lowerChars l) || !containsSub inmueblePat l

/-- Models `normalize_listing_link` on character lists. -/
def normalizeChars (l : List Char) : List Char :=
  if normalizeGuard l then stripChars l
  else
    match findInmuebleDigits l with
    | some ds => canonicalUrlChars ++ ds ++ ['/']
    | none => stripChars l

/-- Models `normalize_listing_link(url)` (export.py:129-136): canonical form
`https://www.idealista.com/inmueble/{id}/` when the URL mentions idealista and
contains `/inmueble/{digits}`, otherwise `url.strip()`. -/
def normalize_listing_link (url : String) : String :=
  String.mk (normalizeChars url.data)

/-! ### Idempotence of `normalize_listing_link` -/

/-- Predicate: `l` contains an occurrence of `"/inmueble/"` immediately followed by a
digit — exactly the inputs on which `re.search(r"/inmueble/(\d+)/?", l)`
succeeds. -/
def InmuebleMatchAt (l : List Char) : Prop :=
  ∃ a d bs, l = a ++ inmueblePat ++ d :: bs ∧ d.isDigit = true

theorem matchAt_cons (c : Char) (rest : List Char) :
    InmuebleMatchAt (c :: rest) ↔
      (∃ d bs, c :: rest = inmueblePat ++ d :: bs ∧ d.isDigit = true) ∨
        InmuebleMatchAt rest := by
  constructor
  · rintro ⟨a, d, bs, heq, hd⟩
    cases a with
    | nil => exact Or.inl ⟨d, bs, by simpa using heq, hd⟩
    | cons a' as =>
      right
      rw [List.cons_append, List.cons_append] at heq
      injection heq with h₁ h₂
      exact ⟨as, d, bs, h₂, hd⟩
  · rintro (⟨d, bs, heq, hd⟩ | ⟨a, d, bs, heq, hd⟩)
    · exact ⟨[], d, bs, by simp [heq], hd⟩
    · exact ⟨c :: a, d, bs, by simp [heq], hd⟩

theorem matchAt_mono {t l : List Char}
    (h : InmuebleMatchAt t) (hi : t <:+: l) : InmuebleMatchAt l := by
  obtain ⟨a, d, bs, rfl, hd⟩ := h
  obtain ⟨s, u, rfl⟩ := hi
  exact ⟨s ++ a, d, bs ++ u, by simp, hd⟩

theorem findInmuebleDigits_none_iff (l : List Char) :
    findInmuebleDigits l = none ↔ ¬ InmuebleMatchAt l := by
  induction l with
  | nil =>
    simp only [findInmuebleDigits, true_iff]
    rintro ⟨a, d, bs, heq, -⟩
    simpa using heq.symm
  | cons c rest ih =>
    rw [matchAt_cons]
    by_cases hpre : inmueblePat.isPrefixOf (c :: rest) = true
    · obtain ⟨suf, hsuf⟩ := List.isPrefixOf_iff_prefix.mp hpre
      have hdrop : (c :: rest).drop 10 = suf := by
        rw [← hsuf]; exact List.drop_left' (by decide)
      have hhere : ∀ d bs, c :: rest = inmueblePat ++ d :: bs ↔ suf = d :: bs := by
        intro d bs
        rw [← hsuf]
        exact ⟨fun h => List.append_cancel_left h, fun h => by rw [h]⟩
      cases suf with
      | nil =>
        have hstep : findInmuebleDigits (c :: rest) = findInmuebleDigits rest := by
          conv_lhs => rw [findInmuebleDigits]
          rw [if_pos hpre, hdrop]
        rw [hstep, ih]
        constructor
        · rintro hn (⟨d, bs, h, -⟩ | hm)
          · exact absurd ((hhere d bs).mp h) (by simp)
          · exact hn hm
        · intro hn hm; exact hn (Or.inr hm)
      | cons d0 ds0 =>
        have hstep : findInmuebleDigits (c :: rest)
            = if d0.isDigit then some (d0 :: ds0.takeWhile Char.isDigit)
              else findInmuebleDigits rest := by
          conv_lhs => rw [findInmuebleDigits]
          rw [if_pos hpre, hdrop]
        by_cases hd0 : d0.isDigit = true
        · rw [hstep, if_pos hd0]
          constructor
          · intro h; exact absurd h (by simp)
          · intro h
            exact absurd (Or.inl ⟨d0, ds0, (hhere d0 ds0).mpr rfl, hd0⟩) h
        · rw [hstep, if_neg hd0, ih]
          constructor
          · rintro hn (⟨d, bs, h, hd⟩ | hm)
            · obtain ⟨rfl, -⟩ := List.cons.inj ((hhere d bs).mp h)
              exact hd0 hd
            · exact hn hm
          · intro hn hm; exact hn (Or.inr hm)
    · have hstep : findInmuebleDigits (c :: rest) = findInmuebleDigits rest := by
        conv_lhs => rw [findInmuebleDigits]
        rw [if_neg hpre]
      rw [hstep, ih]
      constructor
      · rintro hn (⟨d, bs, h, -⟩ | hm)
        · exact hpre ( List.isPrefixOf_iff_prefix.mpr ⟨d :: bs, h.symm⟩)
        · exact hn hm
      · intro hn hm; exact hn (Or.inr hm)

theorem findInmuebleDigits_none_mono {t l : List Char}
    (h : findInmuebleDigits l = none) (hi : t <:+: l) :
    findInmuebleDigits t = none := by
  rw [findInmuebleDigits_none_iff] at h ⊢
  exact fun hm => h (matchAt_mono hm hi)

theorem findInmuebleDigits_some_digits {l ds : List Char}
    (h : findInmuebleDigits l = some ds) :
    ds ≠ [] ∧ ∀ c ∈ ds, c.isDigit = true := by
  induction l with
  | nil => simp [findInmuebleDigits] at h
  | cons c rest ih =>
    by_cases hpre : inmueblePat.isPrefixOf (c :: rest) = true
    · cases hdrop : (c :: rest).drop 10 with
      | nil =>
        have hstep : findInmuebleDigits (c :: rest) = findInmuebleDigits rest := by
          conv_lhs => rw [findInmuebleDigits]
          rw [if_pos hpre, hdrop]
        rw [hstep] at h; exact ih h
      | cons d0 ds0 =>
        have hstep : findInmuebleDigits (c :: rest)
            = if d0.isDigit then some (d0 :: ds0.takeWhile Char.isDigit)
              else findInmuebleDigits rest := by
          conv_lhs => rw [findInmuebleDigits]
          rw [if_pos hpre, hdrop]
        rw [hstep] at h
        by_cases hd0 : d0.isDigit = true
        · rw [if_pos hd0] at h
          obtain rfl := (Option.some.inj h).symm
          refine ⟨by simp, ?_⟩
          intro x hx
          rcases List.mem_cons.mp hx with rfl | hx
          · exact hd0
          · exact List.mem_takeWhile_imp hx
        · rw [if_neg hd0] at h; exact ih h
    · have hstep : findInmuebleDigits (c :: rest) = findInmuebleDigits rest := by
        conv_lhs => rw [findInmuebleDigits]
        rw [if_neg hpre]
      rw [hstep] at h; exact ih h

theorem normalizeGuard_strip {l : List Char} (h : normalizeGuard l = true) :
    normalizeGuard (stripChars l) = true := by
  unfold normalizeGuard at h ⊢
  rcases Bool.or_eq_true_iff.mp h with h' | h₃
  · rcases Bool.or_eq_true_iff.mp h' with h₁ | h₂
    · -- empty input strips to empty
      have : l = [] := by simpa using h₁
      subst this; decide
    · -- "idealista" not in the lowered input: also not in the lowered strip
      apply Bool.or_eq_true_iff.mpr; left
      apply Bool.or_eq_true_iff.mpr; right
      simp only [Bool.not_eq_true'] at h₂ ⊢
      cases hc : containsSub idealistaPat (lowerChars (stripChars l)) with
      | false => rfl
      | true =>
        exfalso
        have : containsSub idealistaPat (lowerChars l) = true :=
          containsSub_mono _ hc ((stripChars_within l).map Char.toLower)
        rw [h₂] at this; exact Bool.false_ne_true this
  · -- "/inmueble/" not in the input: also not in the strip
    apply Bool.or_eq_true_iff.mpr; right
    simp only [Bool.not_eq_true'] at h₃ ⊢
    cases hc : containsSub inmueblePat (stripChars l) with
    | false => rfl
    | true =>
      exfalso
      have : containsSub inmueblePat l = true :=
        containsSub_mono _ hc (stripChars_within l)
      rw [h₃] at this; exact Bool.false_ne_true this

theorem findInmuebleDigits_canonical {d : Char} {tl : List Char}
    (hd : d.isDigit = true) :
    findInmuebleDigits (canonicalUrlChars ++ (d :: tl) ++ ['/'])
      = some (d :: (tl ++ ['/']).takeWhile Char.isDigit) := by
  -- the scan over "https://www.idealista.com" finds no match (each prefix
  -- test fails on concrete characters), reaching the "/inmueble/" suffix;
  -- there the pattern matches and the digit run from `d` is captured.
  have step : findInmuebleDigits (canonicalUrlChars ++ (d :: tl) ++ ['/'])
      = if d.isDigit then
          some (d :: (tl ++ ['/']).takeWhile Char.isDigit)
        else findInmuebleDigits ("inmueble/".data ++ (d :: (tl ++ ['/']))) := rfl
  rw [step, if_pos hd]

theorem takeWhile_digits_append {tl : List Char}
    (h : ∀ c ∈ tl, c.isDigit = true) :
    (tl ++ ['/']).takeWhile Char.isDigit = tl := by
  rw [List.takeWhile_append_of_pos h]
  simp

theorem normalizeGuard_canonical {ds : List Char} :
    normalizeGuard (canonicalUrlChars ++ ds ++ ['/']) = false := by
  unfold normalizeGuard
  have h₁ : (canonicalUrlChars ++ ds ++ ['/']).isEmpty = false := rfl
  have hcanpre : canonicalUrlChars <:+: canonicalUrlChars ++ ds ++ ['/'] :=
    (List.prefix_append canonicalUrlChars (ds ++ ['/'])).isInfix.trans
      (by rw [List.append_assoc])
  have h₂ : containsSub idealistaPat
      (lowerChars (canonicalUrlChars ++ ds ++ ['/'])) = true := by
    refine containsSub_mono (lowerChars canonicalUrlChars) (by decide) ?_
    exact hcanpre.map Char.toLower
  have h₃ : containsSub inmueblePat (canonicalUrlChars ++ ds ++ ['/']) = true :=
    containsSub_mono canonicalUrlChars (by decide) hcanpre
  rw [h₁, h₂, h₃]; rfl

theorem normalizeChars_canonical_fixed {ds : List Char}
    (hne : ds ≠ []) (hdig : ∀ c ∈ ds, c.isDigit = true) :
    normalizeChars (canonicalUrlChars ++ ds ++ ['/'])
      = canonicalUrlChars ++ ds ++ ['/'] := by
  obtain ⟨d, tl, rfl⟩ : ∃ d tl, ds = d :: tl := by
    cases ds with
    | nil => exact absurd rfl hne
    | cons d tl => exact ⟨d, tl, rfl⟩
  rw [normalizeChars, normalizeGuard_canonical]
  simp only [Bool.false_eq_true, if_false]
  rw [findInmuebleDigits_canonical (hdig d (by simp)),
    takeWhile_digits_append (fun c hc => hdig c (by simp [hc]))]

/-- Idempotence of link canonicalization, at the character-list level. -/
theorem normalizeChars_idem (l : List Char) :
    normalizeChars (normalizeChars l) = normalizeChars l := by
  by_cases hg : normalizeGuard l = true
  · have hl : normalizeChars l = stripChars l := by rw [normalizeChars, if_pos hg]
    rw [hl, normalizeChars, if_pos (normalizeGuard_strip hg), stripChars_idem]
  · cases hf : findInmuebleDigits l with
    | none =>
      have hl : normalizeChars l = stripChars l := by
        rw [normalizeChars, if_neg hg, hf]
      rw [hl]
      by_cases hg2 : normalizeGuard (stripChars l) = true
      · rw [normalizeChars, if_pos hg2, stripChars_idem]
      · rw [normalizeChars, if_neg hg2,
          findInmuebleDigits_none_mono hf (stripChars_within l), stripChars_idem]
    | some ds =>
      have hl : normalizeChars l = canonicalUrlChars ++ ds ++ ['/'] := by
        rw [normalizeChars, if_neg hg, hf]
      obtain ⟨hne, hdig⟩ := findInmuebleDigits_some_digits hf
      rw [hl, normalizeChars_canonical_fixed hne hdig]

/-- Idempotence at the `String` level. -/
theorem normalize_listing_link_idem (url : String) :
    normalize_listing_link (normalize_listing_link url) = normalize_listing_link url := by
  unfold normalize_listing_link
  rw [show (String.mk (normalizeChars url.data)).data = normalizeChars url.data from rfl,
    normalizeChars_idem]

/-! ## Data model (parsers.py) -/

/-- Models `ListingCard` dataclass (parsers.py:154-184); `None` fields are `Option`. -/
structure ListingCard where
  listing_type : String := "venta"
  title : String := ""
  link : String := ""
  price : Option Int := none
  currency : String := "€"
  rooms : Option Int := none
  sq_meters : Option Int := none
  location : String := ""
  description : String := ""
  tags : List String := []
  seller : Option String := none
  seller_url : Option String := none
deriving DecidableEq

/-- Models `DetailListing` dataclass (parsers.py:187-211); the `features` dict is a
key/value association list with unique keys. -/
structure DetailListing where
  url : String := ""
  title : String := ""
  location : String := ""
  price : Option Int := none
  currency : String := "€"
  description : String := ""
  updated : String := ""
  features : List (String × List String) := []
  images : List String := []
deriving DecidableEq

/-! ## Block detector (fetcher.py:432-454) -/

/-- The `block_indicators` list of `is_blocked_page`, verbatim. -/
def blockIndicators : List String :=
  ["Please enable JS",
   "enable JavaScript",
   "disable any ad blocker",
   "datadome",
   "bloqueado",
   "blocked",
   "captcha",
   "captcha challenge",
   "security challenge",
   "please complete the challenge",
   "se ha detectado un uso indebido",
   "el acceso se ha bloqueado",
   "uso indebido"]

/-- Models `is_blocked_page(html)` (fetcher.py:432): `True` when the markup is empty
or shorter than 500 characters, or when the lower-cased markup contains one of
the `block_indicators` (each itself lower-cased). -/
def is_blocked_page (html : String) : Bool :=
  if html.data.isEmpty || html.data.length < 500 then true
  else blockIndicators.any fun ind =>
    containsSub (lowerChars ind.data) (lowerChars html.data)

/-- Models `looks_like_listing_page(html)` (parsers.py:319-335), parameterised by the
pure extraction collaborator `parse_search_page` (parsel-based HTML parsing is
outside the core, per the spec's external-interface boundary; it is modelled
as a total oracle `String → Nat × List ListingCard` returning
`(total_count, cards)`). -/
def looks_like_listing_page (parseSearch : String → Nat × List ListingCard)
    (html : String) : Bool :=
  let r := parseSearch html
  if r.1 > 0 || decide (r.2.length > 0) then true
  else if containsSub "/inmueble/".data html.data
      && containsSub "idealista.com".data html.data then true
  else if decide (html.data.length > 5000)
      && containsSub "idealista".data (lowerChars html.data)
      && (containsSub "items-list".data html.data
          || containsSub "item-info-container".data html.data) then true
  else false

/-! ## Retry policy (fetcher.py:407-429)

`fetch_html_with_retry` loops `attempt in range(max_retries)` over a
side-effecting `fetch_html`.  The fetch attempts are modelled by an oracle
`attempts : Nat → Option (String × Int)`; `none` models an attempt that raised
(the `except Exception` branch), `some (html, status)` a normal return.  The
embedding additionally returns the list of back-off sleeps performed. -/

/-- Models `backoff_sec[attempt] if attempt < len(backoff_sec) else backoff_sec[-1]`
(fetcher.py:427).  Python raises on an empty schedule; the embedding
totalises that case with 0 (theorems assume a non-empty schedule). -/
def backoffAt (backoff : List Int) (i : Nat) : Int :=
  if h : i < backoff.length then backoff.get ⟨i, h⟩ else backoff.getLastD 0

/-- One pass of the retry loop: `i` is the current attempt index, `remaining`
the number of attempts left (initially `max_retries`), `last` the running
`last_result`.  Returns the final result and the performed sleeps. -/
def fetchRetryGo (attempts : Nat → Option (String × Int)) (backoff : List Int) :
    Nat → Nat → String × Int → (String × Int) × List Int
  | _, 0, last => (last, [])
  | i, r + 1, _last =>
    match attempts i with
    | some (html, status) =>
      if status = 200 then ((html, status), [])
      else
        if r = 0 then ((html, status), [])
        else
          let rec_result := fetchRetryGo attempts backoff (i + 1) r (html, status)
          (rec_result.1, backoffAt backoff i :: rec_result.2)
    | none =>
      if r = 0 then (("", 0), [])
      else
        let rec_result := fetchRetryGo attempts backoff (i + 1) r ("", 0)
        (rec_result.1, backoffAt backoff i :: rec_result.2)

/-- Models `fetch_html_with_retry(url, max_retries=3, backoff_sec=(10,30,60))`
(fetcher.py:407-429): never raises; first component is the returned
`(html, status)`, second the back-off sleeps performed between attempts. -/
def fetch_html_with_retry (attempts : Nat → Option (String × Int))
    (max_retries : Nat := 3) (backoff_sec : List Int := [10, 30, 60]) :
    (String × Int) × List Int :=
  fetchRetryGo attempts backoff_sec 0 max_retries ("", 0)

/-! ## Selenium fetch path (fetcher.py:247-273)

`_do_fetch` inside `_fetch_html_selenium_sync` navigates, dismisses banners,
waits and scrolls (side effects), then returns `(driver.page_source or "", 200)`
— the status is the constant 200.  The navigation outcome is modelled by an
oracle: `none` models a raised exception (propagated to the caller), and
`some src` a completed navigation with `driver.page_source = src`
(`src = none` models a `None` page source, replaced by `""`). -/
def seleniumFetchResult (nav : Option (Option String)) : Option (String × Int) :=
  nav.map fun src => (src.getD "", 200)

/-! ## Orchestrator (`_run_with_fetcher`, orchestrator.py:36-218)

The side-effecting collaborators are oracles:

* `fetchPage1` — the `(html, status)` produced by
  `fetch_html_with_retry(base_url + "/")` for the bootstrap fetch;
* `fetchSearch p a` — the result of `fetch_html_with_retry` for search page
  `p` on attempt `a` (`a = 0` first fetch, `a = 1` the retry-once after a
  suspected block);
* `fetchDetail url` — the result of `fetch_html_with_retry` for a listing
  detail page;
* `parseSearch` / `parseDetail` — the pure extraction collaborators
  `parse_search_page` / `parse_detail_page`.

The embedded run returns the emitted records (each record is passed to the
`on_record` callback and appended to `results` together, orchestrator.py
lines 114-117, 135-137, 143-145) plus a trace of performed fetches. -/

structure FetchEnv where
  fetchPage1 : String × Int
  fetchSearch : Int → Nat → String × Int
  fetchDetail : String → String × Int
  parseSearch : String → Nat × List ListingCard
  parseDetail : String → String → DetailListing

/-- One fetch operation performed by the orchestrator. -/
inductive FetchEvent
  | page1Fetch (url : String)
  | searchFetch (page : Int) (attempt : Nat)
  | detailFetch (url : String)
deriving DecidableEq

/-- An emitted record: the card's `to_dict()` fields with `"link"` replaced by
the canonical link, optionally merged with a parsed detail page
(orchestrator.py:114, 120-134).  `rooms`, `sq_meters` and `location` carry the
merged values. -/
structure RunRecord where
  listing_type : String
  title : String
  link : String
  price : Option Int
  currency : String
  rooms : Option Int
  sq_meters : Option Int
  location : String
  description : String
  tags : List String
  seller : Option String
  seller_url : Option String
  detail : Option DetailListing
deriving DecidableEq

/-- Models `{**card.to_dict(), "link": canonical_link}` (orchestrator.py:114, 142). -/
def cardOnlyRecord (card : ListingCard) (canonical : String) : RunRecord :=
  { listing_type := card.listing_type
    title := card.title
    link := canonical
    price := card.price
    currency := card.currency
    rooms := card.rooms
    sq_meters := card.sq_meters
    location := card.location
    description := card.description
    tags := card.tags
    seller := card.seller
    seller_url := card.seller_url
    detail := none }

/-- Accumulate the value of an ASCII digit string. -/
def digitsVal (ds : List Char) : Int :=
  ds.foldl (fun n c => n * 10 + ((c.toNat : Int) - ('0'.toNat : Int))) 0

/-- Python `int(s)` on a string: optional sign then ASCII digits
(surrounding whitespace stripped); `none` models a raised `ValueError`. -/
def pyInt (s : String) : Option Int :=
  let t := stripChars s.data
  match t with
  | '-' :: ds =>
    if ds ≠ [] ∧ ds.all Char.isDigit then some (-(digitsVal ds)) else none
  | '+' :: ds =>
    if ds ≠ [] ∧ ds.all Char.isDigit then some (digitsVal ds) else none
  | ds =>
    if ds ≠ [] ∧ ds.all Char.isDigit then some (digitsVal ds) else none

/-- Models `features.get(key)` on the detail-features dict. -/
def featGet (features : List (String × List String)) (key : String) :
    Option (List String) :=
  (features.find? fun kv => kv.1 == key).map (·.2)

/-- The merged record for a successful detail fetch (orchestrator.py:119-134):
card fields with `"link"` canonical and `"detail"` attached; `rooms` /
`sq_meters` overridden by `int(feats[...][0])` when that key holds a non-empty
list and parses (a `ValueError` leaves the card value); `location` overridden
by a non-empty detail location. -/
def mergedRecord (card : ListingCard) (canonical : String)
    (detail : DetailListing) : RunRecord :=
  let rooms' :=
    match featGet detail.features "rooms" with
    | some (s :: _) =>
      match pyInt s with
      | some n => some n
      | none => card.rooms
    | _ => card.rooms
  let sq' :=
    match featGet detail.features "sq_meters" with
    | some (s :: _) =>
      match pyInt s with
      | some n => some n
      | none => card.sq_meters
    | _ => card.sq_meters
  { cardOnlyRecord card canonical with
    rooms := rooms'
    sq_meters := sq'
    location := if detail.location ≠ "" then detail.location else card.location
    detail := some detail }

/-- Models `normalize_listing_link(c.link) if c.link else ""` (orchestrator.py:91). -/
def dedupeCanonical (c : ListingCard) : String :=
  if c.link ≠ "" then normalize_listing_link c.link else ""

/-- Models `_dedupe_unique(cards)` (orchestrator.py:87-96): keep cards whose canonical
link is non-empty, not in `already_seen` and not seen earlier in this pass. -/
def dedupeUniqueGo (already_seen : List String) :
    List String → List ListingCard → List ListingCard
  | _, [] => []
  | seen, c :: rest =>
    if dedupeCanonical c = "" ∨ dedupeCanonical c ∈ already_seen ∨
        dedupeCanonical c ∈ seen then
      dedupeUniqueGo already_seen seen rest
    else c :: dedupeUniqueGo already_seen (dedupeCanonical c :: seen) rest

def dedupeUnique (already_seen : List String) (cards : List ListingCard) :
    List ListingCard :=
  dedupeUniqueGo already_seen [] cards

/-- Mutable run state threaded through the pagination loop. -/
structure LoopState where
  all_cards : List ListingCard
  processed : List String
  results : List RunRecord
  trace : List FetchEvent
  cb : Nat

/-- Models `_process_cards(cards_to_process)` (orchestrator.py:98-137): for each card,
skip if its canonical link was already processed this run, else fetch the
detail page (card-only record on non-200, merged record on 200). -/
def processCards (env : FetchEnv) : LoopState → List ListingCard → LoopState
  | st, [] => st
  | st, card :: rest =>
    let canonical := normalize_listing_link card.link
    if canonical ∈ st.processed then processCards env st rest
    else
      let st1 := { st with processed := canonical :: st.processed }
      let fetch_url := if canonical ≠ "" then canonical else card.link
      let fr := env.fetchDetail fetch_url
      let st2 := { st1 with trace := st1.trace ++ [FetchEvent.detailFetch fetch_url] }
      if fr.2 ≠ 200 then
        processCards env
          { st2 with results := st2.results ++ [cardOnlyRecord card canonical] } rest
      else
        processCards env
          { st2 with results := st2.results ++
              [mergedRecord card canonical (env.parseDetail fr.1 fetch_url)] } rest

/-- Lines 202-215 of the pagination loop body: on an empty card list skip the
page (the consecutive-block counter is left unchanged); otherwise reset the
counter, stop if the first card's link equals page 1's first (truthy) link,
else extend `all_cards`, dedupe, and process the not-yet-processed cards.
The returned `Bool` is the `break` flag. -/
def tailProcess (env : FetchEnv) (already_seen : List String)
    (first_link : Option String) (st : LoopState) (cards : List ListingCard) :
    LoopState × Bool :=
  match cards with
  | [] => (st, false)
  | c0 :: _ =>
    let st := { st with cb := 0 }
    let dup : Bool := match first_link with
      | some fl => fl ≠ "" && c0.link == fl
      | none => false
    if dup then (st, true)
    else
      let all' := st.all_cards ++ cards
      let st := { st with all_cards := all' }
      let unique := dedupeUnique already_seen all'
      let to_process := unique.filter fun c =>
        decide (normalize_listing_link c.link ∉ st.processed)
      (processCards env st to_process, false)

/-- One iteration of `for page_num in range(2, total_pages + 1)`
(orchestrator.py:160-215).  Pages before `start_page` are skipped; a non-200
resets the consecutive-block counter and skips; 200 with zero cards and a
blocked-looking page triggers the retry-once path, whose second failure
increments the counter and stops pagination at the threshold 2. -/
def pageStep (env : FetchEnv) (already_seen : List String)
    (first_link : Option String) (start_page : Int) (st : LoopState)
    (page : Int) : LoopState × Bool :=
  if page < start_page then (st, false)
  else
    let fr := env.fetchSearch page 0
    let st := { st with trace := st.trace ++ [FetchEvent.searchFetch page 0] }
    if fr.2 ≠ 200 then ({ st with cb := 0 }, false)
    else
      let cards := (env.parseSearch fr.1).2
      if cards = [] ∧ is_blocked_page fr.1 = true then
        let fr2 := env.fetchSearch page 1
        let st := { st with trace := st.trace ++ [FetchEvent.searchFetch page 1] }
        if fr2.2 ≠ 200 then ({ st with cb := 0 }, false)
        else
          let cards2 := (env.parseSearch fr2.1).2
          if cards2 = [] ∧ is_blocked_page fr2.1 = true then
            let st := { st with cb := st.cb + 1 }
            if st.cb ≥ 2 then (st, true) else (st, false)
          else tailProcess env already_seen first_link st cards2
      else tailProcess env already_seen first_link st cards

/-- The pagination loop over the page numbers, stopping on a `break`. -/
def runPages (env : FetchEnv) (already_seen : List String)
    (first_link : Option String) (start_page : Int) :
    LoopState → List Int → LoopState
  | st, [] => st
  | st, p :: rest =>
    let r := pageStep env already_seen first_link start_page st p
    if r.2 then r.1 else runPages env already_seen first_link start_page r.1 rest

/-- Models `IDEALISTA_MAX_PAGE = 60` (config.py:67). -/
def IDEALISTA_MAX_PAGE : Int := 60

/-- Total page count from page 1's parsed `total_count`
(orchestrator.py:70-73): parsed totals of at most 30 are unreliable, so the
run then paginates up to `min(IDEALISTA_MAX_PAGE, max_pages)`; otherwise
`min(IDEALISTA_MAX_PAGE, max(1, ceil(total_count / 30)), max_pages)`. -/
def computeTotalPages (total_count : Nat) (max_pages : Int) : Int :=
  if total_count > 30 then
    min IDEALISTA_MAX_PAGE
      (min (max 1 (((total_count : Int) + 29) / 30)) max_pages)
  else min IDEALISTA_MAX_PAGE max_pages

/-- Resume start page (orchestrator.py:78-82):
`min(total_pages, len(already_seen) // 30 + 1)` when a non-empty seen set was
supplied and there is more than one page, else 1. -/
def computeStartPage (total_pages : Int) (already_seen : List String) : Int :=
  if already_seen ≠ [] ∧ total_pages > 1 then
    min total_pages ((already_seen.length : Int) / 30 + 1)
  else 1

/-- Python `range(a, b)` over integers. -/
def pythonRange (a b : Int) : List Int :=
  (List.range (b - a).toNat).map fun i => a + Int.ofNat i

/-- The observable outcome of `_run_with_fetcher`: emitted records (in
emission order), the fatal bootstrap error if raised, and the fetch trace. -/
structure RunResult where
  emitted : List RunRecord
  error : Option String
  trace : List FetchEvent

/-- Models `_run_with_fetcher(base_url, max_pages, fetch_details, already_seen, ...)`
(orchestrator.py:36-218). -/
def runWithFetcher (env : FetchEnv) (base_url : String) (max_pages : Int)
    (fetch_details : Bool) (already_seen : List String) : RunResult :=
  let fr := env.fetchPage1
  let trace0 := [FetchEvent.page1Fetch (base_url ++ "/")]
  let long_ok := fr.2 = 200 ∧ fr.1.length ≥ 12000
  let blocked := fr.2 ≠ 200 ∨
    (¬ long_ok ∧ is_blocked_page fr.1 = true ∧
      looks_like_listing_page env.parseSearch fr.1 = false)
  if blocked then
    { emitted := []
      error := some "First page failed or blocked after retries."
      trace := trace0 }
  else
    let parsed := env.parseSearch fr.1
    let total_pages := computeTotalPages parsed.1 max_pages
    let first_link := parsed.2.head?.map (·.link)
    let start_page := computeStartPage total_pages already_seen
    if fetch_details = false then
      let unique := dedupeUnique already_seen parsed.2
      { emitted := unique.map fun c => cardOnlyRecord c (normalize_listing_link c.link)
        error := none
        trace := trace0 }
    else
      let st0 : LoopState :=
        { all_cards := parsed.2, processed := [], results := [],
          trace := trace0, cb := 0 }
      let st1 :=
        if start_page ≤ 1 then
          processCards env st0 ((dedupeUnique already_seen parsed.2).filter fun c =>
            decide (normalize_listing_link c.link ∉ st0.processed))
        else st0
      let stF := runPages env already_seen first_link start_page st1
        (pythonRange 2 (total_pages + 1))
      { emitted := stF.results, error := none, trace := stF.trace }

/-! ## Retry-policy lemmas (towards C3 and C10) -/

theorem fetchRetryGo_first200 (attempts : Nat → Option (String × Int))
    (backoff : List Int) :
    ∀ (k i r : Nat) (last : String × Int) (h : String),
      k < r → attempts (i + k) = some (h, (200 : Int)) →
      (∀ j < k, ∀ p : String × Int, attempts (i + j) = some p → p.2 ≠ 200) →
      fetchRetryGo attempts backoff i r last
        = ((h, 200), (List.range k).map fun j => backoffAt backoff (i + j)) := by
  intro k
  induction k with
  | zero =>
    intro i r last h hr hat _
    obtain ⟨r', rfl⟩ : ∃ r', r = r' + 1 := ⟨r - 1, by omega⟩
    rw [Nat.add_zero] at hat
    rw [fetchRetryGo, hat]
    simp
  | succ k ih =>
    intro i r last h hr hat hno
    obtain ⟨r', rfl⟩ : ∃ r', r = r' + 1 := ⟨r - 1, by omega⟩
    have hr' : k < r' := by omega
    have hrne : r' ≠ 0 := by omega
    have hat' : attempts (i + 1 + k) = some (h, (200 : Int)) := by
      rw [show i + 1 + k = i + (k + 1) from by omega]; exact hat
    have hno' : ∀ j < k, ∀ p : String × Int, attempts (i + 1 + j) = some p → p.2 ≠ 200 := by
      intro j hj p hp
      exact hno (j + 1) (by omega) p (by rw [show i + (j + 1) = i + 1 + j from by omega]; exact hp)
    have hmap : (List.range (k + 1)).map (fun j => backoffAt backoff (i + j))
        = backoffAt backoff i :: (List.range k).map fun j => backoffAt backoff (i + 1 + j) := by
      rw [List.range_succ_eq_map, List.map_cons, List.map_map]
      refine congrArg₂ _ (by simp) ?_
      refine List.map_congr_left fun j _ => ?_
      simp only [Function.comp_apply]
      congr 1
      omega
    cases hat0 : attempts i with
    | none =>
      rw [fetchRetryGo, hat0]
      simp only [hrne, if_false]
      rw [ih (i + 1) r' ("", 0) h hr' hat' hno', hmap]
    | some p =>
      obtain ⟨h0, s0⟩ := p
      have hs0 : s0 ≠ 200 := hno 0 (by omega) (h0, s0) (by rw [Nat.add_zero]; exact hat0)
      rw [fetchRetryGo, hat0]
      simp only [hs0, if_false, hrne]
      rw [ih (i + 1) r' (h0, s0) h hr' hat' hno', hmap]

theorem fetchRetryGo_exhaust (attempts : Nat → Option (String × Int))
    (backoff : List Int) :
    ∀ (r i : Nat) (last : String × Int),
      1 ≤ r →
      (∀ j < r, ∀ p : String × Int, attempts (i + j) = some p → p.2 ≠ 200) →
      fetchRetryGo attempts backoff i r last
        = ((match attempts (i + r - 1) with
            | some p => p
            | none => ("", 0)),
           (List.range (r - 1)).map fun j => backoffAt backoff (i + j)) := by
  intro r
  induction r with
  | zero => intro i last h; omega
  | succ r' ih =>
    intro i last _ hno
    have hmap : ∀ r'' : Nat, 1 ≤ r'' →
        (List.range r'').map (fun j => backoffAt backoff (i + j))
          = backoffAt backoff i :: (List.range (r'' - 1)).map
              fun j => backoffAt backoff (i + 1 + j) := by
      intro r'' h1
      obtain ⟨m, rfl⟩ : ∃ m, r'' = m + 1 := ⟨r'' - 1, by omega⟩
      rw [List.range_succ_eq_map, List.map_cons, List.map_map]
      refine congrArg₂ _ (by simp) ?_
      rw [Nat.add_sub_cancel]
      refine List.map_congr_left fun j _ => ?_
      simp only [Function.comp_apply]
      congr 1
      omega
    by_cases hr0 : r' = 0
    · subst hr0
      cases hat0 : attempts i with
      | none => rw [fetchRetryGo, hat0]; simp [hat0]
      | some p =>
        obtain ⟨h0, s0⟩ := p
        have hs0 : s0 ≠ 200 := hno 0 (by omega) (h0, s0) (by rw [Nat.add_zero]; exact hat0)
        rw [fetchRetryGo, hat0]
        simp [hs0, hat0]
    · have hr1 : 1 ≤ r' := by omega
      have hno' : ∀ j < r', ∀ p : String × Int, attempts (i + 1 + j) = some p → p.2 ≠ 200 := by
        intro j hj p hp
        exact hno (j + 1) (by omega) p
          (by rw [show i + (j + 1) = i + 1 + j from by omega]; exact hp)
      have e1 : i + 1 + r' - 1 = i + (r' + 1) - 1 := by omega
      have e2 : r' + 1 - 1 = r' := by omega
      cases hat0 : attempts i with
      | none =>
        rw [fetchRetryGo, hat0]
        simp only [hr0, if_false]
        rw [ih (i + 1) ("", 0) hr1 hno', e1, e2, hmap r' hr1]
      | some p =>
        obtain ⟨h0, s0⟩ := p
        have hs0 : s0 ≠ 200 := hno 0 (by omega) (h0, s0) (by rw [Nat.add_zero]; exact hat0)
        rw [fetchRetryGo, hat0]
        simp only [hs0, if_false, hr0]
        rw [ih (i + 1) (h0, s0) hr1 hno', e1, e2, hmap r' hr1]

theorem fetchRetryGo_status (attempts : Nat → Option (String × Int))
    (backoff : List Int)
    (hst : ∀ i p, attempts i = some p → p.2 = (200 : Int)) :
    ∀ (r i : Nat) (last : String × Int), last.2 = 0 ∨ last.2 = 200 →
      (fetchRetryGo attempts backoff i r last).1.2 = 0
        ∨ (fetchRetryGo attempts backoff i r last).1.2 = 200 := by
  intro r
  induction r with
  | zero => intro i last hl; exact hl
  | succ r' ih =>
    intro i last _
    cases hat0 : attempts i with
    | none =>
      rw [fetchRetryGo, hat0]
      by_cases hr0 : r' = 0
      · simp [hr0]
      · simp only [hr0, if_false]
        exact ih (i + 1) ("", 0) (Or.inl rfl)
    | some p =>
      obtain ⟨h0, s0⟩ := p
      have hs0 : s0 = 200 := hst i (h0, s0) hat0
      rw [fetchRetryGo, hat0]
      simp [hs0]

/-! ## Orchestrator loop lemmas (towards C4, C6 and C8) -/

theorem cardOnlyRecord_link (c : ListingCard) (l : String) :
    (cardOnlyRecord c l).link = l := rfl

theorem mergedRecord_link (c : ListingCard) (l : String) (d : DetailListing) :
    (mergedRecord c l d).link = l := rfl

theorem dedupeUniqueGo_mem {already_seen : List String} {cards : List ListingCard}
    {c : ListingCard} :
    ∀ {seen : List String}, c ∈ dedupeUniqueGo already_seen seen cards →
      c.link ≠ "" ∧ normalize_listing_link c.link ∉ already_seen := by
  induction cards with
  | nil => intro seen h; simp [dedupeUniqueGo] at h
  | cons c0 rest ih =>
    intro seen h
    rw [dedupeUniqueGo] at h
    by_cases hg : dedupeCanonical c0 = "" ∨ dedupeCanonical c0 ∈ already_seen ∨
        dedupeCanonical c0 ∈ seen
    · rw [if_pos hg] at h
      exact ih h
    · rw [if_neg hg] at h
      rcases List.mem_cons.mp h with rfl | h'
      · push_neg at hg
        obtain ⟨hne, hnas, -⟩ := hg
        have hlink : c.link ≠ "" := by
          intro hl
          apply hne
          unfold dedupeCanonical
          rw [if_neg (by simp [hl])]
        have hcan : dedupeCanonical c = normalize_listing_link c.link := by
          unfold dedupeCanonical
          rw [if_pos hlink]
        exact ⟨hlink, hcan ▸ hnas⟩
      · exact ih h'

theorem dedupeUnique_mem {already_seen : List String} {cards : List ListingCard}
    {c : ListingCard} (h : c ∈ dedupeUnique already_seen cards) :
    c.link ≠ "" ∧ normalize_listing_link c.link ∉ already_seen :=
  dedupeUniqueGo_mem h

theorem results_append_ok {seen : List String} {rs : List RunRecord} {r0 : RunRecord}
    (h : ∀ r ∈ rs, normalize_listing_link r.link ∉ seen)
    (h0 : normalize_listing_link r0.link ∉ seen) :
    ∀ r ∈ rs ++ [r0], normalize_listing_link r.link ∉ seen := by
  intro r hr
  rcases List.mem_append.mp hr with hr | hr
  · exact h r hr
  · rw [List.mem_singleton.mp hr]; exact h0

theorem processCards_results {env : FetchEnv} {seen : List String}
    {cards : List ListingCard} :
    ∀ {st : LoopState},
      (∀ c ∈ cards, normalize_listing_link c.link ∉ seen) →
      (∀ r ∈ st.results, normalize_listing_link r.link ∉ seen) →
      ∀ r ∈ (processCards env st cards).results,
        normalize_listing_link r.link ∉ seen := by
  induction cards with
  | nil => intro st _ hst; simpa [processCards] using hst
  | cons card rest ih =>
    intro st hcards hst
    have hcard : normalize_listing_link card.link ∉ seen :=
      hcards card (List.mem_cons_self ..)
    have hrest : ∀ c ∈ rest, normalize_listing_link c.link ∉ seen :=
      fun c hc => hcards c (List.mem_cons_of_mem _ hc)
    have hidem : normalize_listing_link (normalize_listing_link card.link)
        ∉ seen := by
      rw [normalize_listing_link_idem]; exact hcard
    simp only [processCards]
    by_cases hp : normalize_listing_link card.link ∈ st.processed
    · rw [if_pos hp]
      exact ih hrest hst
    · rw [if_neg hp]
      split <;> split <;>
        first
        | exact ih hrest (results_append_ok hst
            (by rw [cardOnlyRecord_link]; exact hidem))
        | exact ih hrest (results_append_ok hst
            (by rw [mergedRecord_link]; exact hidem))

theorem tailProcess_results {env : FetchEnv} {seen : List String} {fl : Option String}
    {st : LoopState} {cards : List ListingCard}
    (hst : ∀ r ∈ st.results, normalize_listing_link r.link ∉ seen) :
    ∀ r ∈ (tailProcess env seen fl st cards).1.results,
      normalize_listing_link r.link ∉ seen := by
  cases cards with
  | nil => simpa [tailProcess] using hst
  | cons c0 rest =>
    simp only [tailProcess]
    split
    · exact hst
    · refine processCards_results ?_ hst
      intro c hc
      exact (dedupeUnique_mem (List.mem_of_mem_filter hc)).2

theorem pageStep_results {env : FetchEnv} {seen : List String} {fl : Option String}
    {start : Int} {st : LoopState} {page : Int}
    (hst : ∀ r ∈ st.results, normalize_listing_link r.link ∉ seen) :
    ∀ r ∈ (pageStep env seen fl start st page).1.results,
      normalize_listing_link r.link ∉ seen := by
  simp only [pageStep]
  split
  · exact hst
  · split
    · exact hst
    · split
      · split
        · exact hst
        · split
          · split
            · exact hst
            · exact hst
          · exact tailProcess_results hst
      · exact tailProcess_results hst

theorem runPages_results {env : FetchEnv} {seen : List String} {fl : Option String}
    {start : Int} {pages : List Int} :
    ∀ {st : LoopState},
      (∀ r ∈ st.results, normalize_listing_link r.link ∉ seen) →
      ∀ r ∈ (runPages env seen fl start st pages).results,
        normalize_listing_link r.link ∉ seen := by
  induction pages with
  | nil => intro st hst; simpa [runPages] using hst
  | cons p rest ih =>
    intro st hst
    simp only [runPages]
    split
    · exact pageStep_results hst
    · exact ih (pageStep_results hst)

theorem processCards_trace_new {env : FetchEnv} {cards : List ListingCard} :
    ∀ {st : LoopState} {e : FetchEvent},
      e ∈ (processCards env st cards).trace →
      e ∈ st.trace ∨ ∃ u, e = FetchEvent.detailFetch u := by
  induction cards with
  | nil => intro st e h; exact Or.inl (by simpa [processCards] using h)
  | cons card rest ih =>
    intro st e h
    simp only [processCards] at h
    by_cases hp : normalize_listing_link card.link ∈ st.processed
    · rw [if_pos hp] at h
      exact ih h
    · rw [if_neg hp] at h
      have hsplit : ∀ (tr : List FetchEvent) (u : String),
          e ∈ tr ++ [FetchEvent.detailFetch u] →
          e ∈ tr ∨ ∃ u', e = FetchEvent.detailFetch u' := by
        intro tr u h'
        rcases List.mem_append.mp h' with h'' | h''
        · exact Or.inl h''
        · exact Or.inr ⟨_, List.mem_singleton.mp h''⟩
      split at h <;> split at h <;>
      · rcases ih h with h' | h'
        · exact hsplit st.trace _ h'
        · exact Or.inr h'

theorem tailProcess_trace_new {env : FetchEnv} {seen : List String} {fl : Option String}
    {st : LoopState} {cards : List ListingCard} {e : FetchEvent}
    (h : e ∈ (tailProcess env seen fl st cards).1.trace) :
    e ∈ st.trace ∨ ∃ u, e = FetchEvent.detailFetch u := by
  cases cards with
  | nil => exact Or.inl (by simpa [tailProcess] using h)
  | cons c0 rest =>
    simp only [tailProcess] at h
    split at h
    · exact Or.inl h
    · have h' := processCards_trace_new h
      exact h'

theorem pageStep_trace_cases {env : FetchEnv} {seen : List String} {fl : Option String}
    {start : Int} {st : LoopState} {page : Int} {e : FetchEvent}
    (h : e ∈ (pageStep env seen fl start st page).1.trace) :
    e ∈ st.trace ∨ (¬ page < start ∧
      ((∃ j, e = FetchEvent.searchFetch page j) ∨ ∃ u, e = FetchEvent.detailFetch u)) := by
  by_cases hlt : page < start
  · rw [show pageStep env seen fl start st page = (st, false) from by
      simp only [pageStep]; rw [if_pos hlt]] at h
    exact Or.inl h
  · have hsf : ∀ j : Nat, e ∈ [FetchEvent.searchFetch page j] →
        (¬ page < start ∧
          ((∃ j', e = FetchEvent.searchFetch page j') ∨
            ∃ u, e = FetchEvent.detailFetch u)) := by
      intro j h'
      exact ⟨hlt, Or.inl ⟨j, List.mem_singleton.mp h'⟩⟩
    have hdouble : e ∈ (st.trace ++ [FetchEvent.searchFetch page 0])
          ++ [FetchEvent.searchFetch page 1] →
        e ∈ st.trace ∨ (¬ page < start ∧
          ((∃ j', e = FetchEvent.searchFetch page j') ∨
            ∃ u, e = FetchEvent.detailFetch u)) := by
      intro h'
      rcases List.mem_append.mp h' with h'' | h''
      · rcases List.mem_append.mp h'' with h3 | h3
        · exact Or.inl h3
        · exact Or.inr (hsf 0 h3)
      · exact Or.inr (hsf 1 h'')
    simp only [pageStep] at h
    rw [if_neg hlt] at h
    split at h
    · rcases List.mem_append.mp h with h' | h'
      · exact Or.inl h'
      · exact Or.inr (hsf 0 h')
    · split at h
      · split at h
        · exact hdouble h
        · split at h
          · split at h
            · exact hdouble h
            · exact hdouble h
          · have h2 := tailProcess_trace_new h
            rcases h2 with h' | h'
            · exact hdouble h'
            · exact Or.inr ⟨hlt, Or.inr h'⟩
      · have h2 := tailProcess_trace_new h
        rcases h2 with h' | h'
        · rcases List.mem_append.mp h' with h'' | h''
          · exact Or.inl h''
          · exact Or.inr (hsf 0 h'')
        · exact Or.inr ⟨hlt, Or.inr h'⟩

theorem runPages_trace_cases {env : FetchEnv} {seen : List String} {fl : Option String}
    {start : Int} {pages : List Int} :
    ∀ {st : LoopState} {e : FetchEvent},
      e ∈ (runPages env seen fl start st pages).trace →
      e ∈ st.trace ∨ ∃ p ∈ pages, ¬ p < start ∧
        ((∃ j, e = FetchEvent.searchFetch p j) ∨ ∃ u, e = FetchEvent.detailFetch u) := by
  induction pages with
  | nil => intro st e h; exact Or.inl (by simpa [runPages] using h)
  | cons p rest ih =>
    intro st e h
    simp only [runPages] at h
    have step : e ∈ (pageStep env seen fl start st p).1.trace →
        e ∈ st.trace ∨ ∃ p' ∈ p :: rest, ¬ p' < start ∧
          ((∃ j, e = FetchEvent.searchFetch p' j) ∨ ∃ u, e = FetchEvent.detailFetch u) := by
      intro h'
      rcases pageStep_trace_cases h' with h'' | ⟨hns, hk⟩
      · exact Or.inl h''
      · exact Or.inr ⟨p, List.mem_cons_self .., hns, hk⟩
    split at h
    · exact step h
    · rcases ih h with h' | ⟨p', hp', hns, hk⟩
      · exact step h'
      · exact Or.inr ⟨p', List.mem_cons_of_mem _ hp', hns, hk⟩

/-- The list `[a, a + 1, ..., a + n - 1]`; an explicit consecutive-run view
of `pythonRange`, convenient for induction along the pagination loop. -/
def consecFrom (a : Int) : Nat → List Int
  | 0 => []
  | n + 1 => a :: consecFrom (a + 1) n

theorem consecFrom_eq_range : ∀ (n : Nat) (a : Int),
    consecFrom a n = (List.range n).map fun i => a + Int.ofNat i := by
  intro n
  induction n with
  | zero => intro a; rfl
  | succ m ih =>
    intro a
    rw [consecFrom, List.range_succ_eq_map, List.map_cons, List.map_map, ih (a + 1)]
    refine congrArg₂ _ (by simp) ?_
    refine List.map_congr_left fun j _ => ?_
    simp only [Function.comp_apply, Int.ofNat_succ, Int.ofNat_eq_natCast]
    omega

theorem pythonRange_eq_consecFrom (a b : Int) :
    pythonRange a b = consecFrom a (b - a).toNat := by
  rw [pythonRange, consecFrom_eq_range]

theorem consecFrom_mem : ∀ (n : Nat) (a p : Int), p ∈ consecFrom a n →
    a ≤ p ∧ p < a + (n : Int) := by
  intro n
  induction n with
  | zero => intro a p h; simp [consecFrom] at h
  | succ m ih =>
    intro a p h
    rw [consecFrom] at h
    rcases List.mem_cons.mp h with rfl | h'
    · constructor
      · omega
      · push_cast; omega
    · have := ih (a + 1) p h'
      push_cast at this ⊢
      omega

theorem pythonRange_mem {a b p : Int} (h : p ∈ pythonRange a b) :
    a ≤ p ∧ p < b := by
  rw [pythonRange_eq_consecFrom] at h
  have := consecFrom_mem _ _ _ h
  omega

/-! ## Claims -/

/-- Claim **C2**, counterexample.  The claim asserts
`canon("/inmueble/123/") == canon("/en/inmueble/123/") == canon("/ca/inmueble/123/")`;
on the code these three relative links contain no `"idealista"` substring, so
`normalize_listing_link` returns each unchanged and they are pairwise
distinct. -/
theorem C2_counterexample :
    ¬ (normalize_listing_link "/inmueble/123/"
        = normalize_listing_link "/en/inmueble/123/"
      ∧ normalize_listing_link "/en/inmueble/123/"
        = normalize_listing_link "/ca/inmueble/123/") := by
  decide

/-- Claim **C2** (amended).  `normalize_listing_link` is idempotent on every string,
and links carrying the idealista domain with the same listing id — including
the `/en/` and `/ca/` locale variants — normalize to the single canonical
string `https://www.idealista.com/inmueble/123/`; the bare relative variants
`/inmueble/123/`, `/en/inmueble/123/` fail the `"idealista" in url.lower()`
guard and are returned unchanged (stripped). -/
theorem C2_canonicalization :
    (∀ url : String, normalize_listing_link (normalize_listing_link url)
        = normalize_listing_link url)
    ∧ normalize_listing_link "https://www.idealista.com/inmueble/123/"
        = "https://www.idealista.com/inmueble/123/"
    ∧ normalize_listing_link "https://www.idealista.com/en/inmueble/123/"
        = "https://www.idealista.com/inmueble/123/"
    ∧ normalize_listing_link "https://www.idealista.com/ca/inmueble/123/"
        = "https://www.idealista.com/inmueble/123/"
    ∧ normalize_listing_link "/inmueble/123/" = "/inmueble/123/"
    ∧ normalize_listing_link "/en/inmueble/123/" = "/en/inmueble/123/" :=
  ⟨normalize_listing_link_idem, by decide, by decide, by decide, by decide, by decide⟩

/-- Attempt oracle for the C3 counterexample: the first attempt observes a
`(html, status)` pair with status 500, every later attempt raises. -/
def c3Attempts : Nat → Option (String × Int) :=
  fun i => if i = 0 then some ("x", 500) else none

/-- Claim **C3**, counterexample.  With `max_retries = 2` and an attempt sequence
that observes `("x", 500)` then raises, the code returns `("", 0)` — not the
last observed pair `("x", 500)` — although not every attempt raised: the
`except` branch resets `last_result` to `("", 0)`. -/
theorem C3_counterexample :
    (fetch_html_with_retry c3Attempts 2 [10, 30, 60]).1 = ("", 0)
    ∧ c3Attempts 0 = some ("x", 500)
    ∧ (("" : String), (0 : Int)) ≠ (("x" : String), (500 : Int)) := by
  decide

/-- Claim **C3** (amended).  `fetch_html_with_retry` is a total function (never
raises); it returns immediately on the first attempt with status 200, having
slept the clamped back-off for each preceding attempt; when no attempt yields
200 it performs all `max_retries` attempts and `max_retries - 1` back-off
sleeps and returns the result of the **final** attempt, where a raising
attempt contributes `("", 0)`; an always-raising fetch therefore yields
`("", 0)` after exactly `max_retries - 1` sleeps; the back-off schedule clamps
to its last element when the attempt index exceeds its length. -/
theorem C3_retry_amended :
    (∀ (attempts : Nat → Option (String × Int)) (mr : Nat) (backoff : List Int)
       (k : Nat) (h : String),
       k < mr → attempts k = some (h, (200 : Int)) →
       (∀ j < k, ∀ p : String × Int, attempts j = some p → p.2 ≠ 200) →
       fetch_html_with_retry attempts mr backoff
         = ((h, 200), (List.range k).map fun j => backoffAt backoff j))
    ∧ (∀ (attempts : Nat → Option (String × Int)) (mr : Nat) (backoff : List Int),
       1 ≤ mr →
       (∀ j < mr, ∀ p : String × Int, attempts j = some p → p.2 ≠ 200) →
       fetch_html_with_retry attempts mr backoff
         = ((match attempts (mr - 1) with
             | some p => p
             | none => ("", 0)),
            (List.range (mr - 1)).map fun j => backoffAt backoff j))
    ∧ (∀ (attempts : Nat → Option (String × Int)) (mr : Nat) (backoff : List Int),
       1 ≤ mr → (∀ k, attempts k = none) →
       (fetch_html_with_retry attempts mr backoff).1 = ("", 0)
       ∧ (fetch_html_with_retry attempts mr backoff).2.length = mr - 1)
    ∧ (∀ (backoff : List Int) (hne : backoff ≠ []) (i : Nat),
       backoff.length ≤ i → backoffAt backoff i = backoff.getLast hne) := by
  refine ⟨?_, ?_, ?_, ?_⟩
  · intro attempts mr backoff k h hk hat hno
    unfold fetch_html_with_retry
    have := fetchRetryGo_first200 attempts backoff k 0 mr ("", 0) h hk
      (by simpa using hat) (by simpa using hno)
    simpa using this
  · intro attempts mr backoff hmr hno
    unfold fetch_html_with_retry
    have := fetchRetryGo_exhaust attempts backoff mr 0 ("", 0) hmr (by simpa using hno)
    simpa using this
  · intro attempts mr backoff hmr hnone
    unfold fetch_html_with_retry
    have := fetchRetryGo_exhaust attempts backoff mr 0 ("", 0) hmr
      (by intro j _ p hp; rw [hnone] at hp; exact absurd hp (by simp))
    simp only [Nat.zero_add] at this
    rw [this, hnone]
    simp
  · intro backoff hne i hi
    unfold backoffAt
    rw [dif_neg (by omega)]
    rw [List.getLastD_eq_getLast?, List.getLast?_eq_getLast backoff hne]
    rfl

/-- Claim **C10**.  The Selenium fetch path reports the constant status 200 whenever
it completes without raising, so through the retry policy a caller using a
selenium-like approach only ever observes status 200 or the transport-failure
status 0 — real HTTP error statuses are never reported. -/
theorem C10_selenium_status :
    (∀ (nav : Option (Option String)) (r : String × Int),
       seleniumFetchResult nav = some r → r.2 = 200)
    ∧ (∀ (navs : Nat → Option (Option String)) (mr : Nat) (backoff : List Int),
       (fetch_html_with_retry (fun i => seleniumFetchResult (navs i)) mr backoff).1.2 = 0
       ∨ (fetch_html_with_retry (fun i => seleniumFetchResult (navs i)) mr backoff).1.2
           = 200) := by
  constructor
  · intro nav r h
    cases nav with
    | none => simp [seleniumFetchResult] at h
    | some src =>
      have h' : ((src.getD "", (200 : Int)) : String × Int) = r := by
        simpa [seleniumFetchResult] using h
      rw [← h']
  · intro navs mr backoff
    unfold fetch_html_with_retry
    refine fetchRetryGo_status _ backoff ?_ mr 0 ("", 0) (Or.inl rfl)
    intro i p hp
    cases hnav : navs i with
    | none => rw [hnav] at hp; simp [seleniumFetchResult] at hp
    | some src =>
      rw [hnav] at hp
      have hp' : ((src.getD "", (200 : Int)) : String × Int) = p := by
        simpa [seleniumFetchResult] using hp
      rw [← hp']

/-- Claim **C10**, witness: a completed navigation with page source `"x"` reports
status 200. -/
theorem C10_selenium_status_witness :
    ((("x" : String), (200 : Int)) : String × Int).2 = 200 :=
  C10_selenium_status.1 (some (some "x")) ("x", 200) rfl

/-- Claim **C3**, witness: a fetch whose first attempt returns status 200 is
returned immediately with no back-off sleeps. -/
theorem C3_retry_amended_witness :
    fetch_html_with_retry (fun _ => some ("h", (200 : Int))) 3 [10, 30, 60]
      = (("h", 200), []) := by
  have := C3_retry_amended.1 (fun _ => some ("h", (200 : Int))) 3 [10, 30, 60] 0 "h"
    (by omega) rfl (by intro j hj; omega)
  simpa using this

/-- Claim **C5**.  Total page count: for a parsed total exceeding 30,
`min(siteMax=60, ceil(total/30), requestedMaxPages)` (the code's `max(1, ·)`
is the identity there); otherwise `min(siteMax=60, requestedMaxPages)`; in
particular total 1234 gives `min(60, 42, maxPages)` and total 12 gives
`min(60, maxPages)`. -/
theorem C5_total_pages :
    (∀ (total : Nat) (mp : Int), 30 < total →
       computeTotalPages total mp
         = min 60 (min (((total : Int) + 29) / 30) mp))
    ∧ (∀ (total : Nat) (mp : Int), total ≤ 30 →
       computeTotalPages total mp = min 60 mp)
    ∧ (∀ mp : Int, computeTotalPages 1234 mp = min 60 (min 42 mp))
    ∧ (∀ mp : Int, computeTotalPages 12 mp = min 60 mp) := by
  have h30 : ∀ (total : Nat) (mp : Int), 30 < total →
      computeTotalPages total mp = min 60 (min (((total : Int) + 29) / 30) mp) := by
    intro total mp h
    rw [computeTotalPages, if_pos h]
    have h2 : (2 : Int) ≤ ((total : Int) + 29) / 30 := by omega
    rw [max_eq_right (by omega)]
    rfl
  refine ⟨h30, ?_, ?_, ?_⟩
  · intro total mp h
    rw [computeTotalPages, if_neg (by omega)]
    rfl
  · intro mp
    rw [h30 1234 mp (by omega)]
    norm_num
  · intro mp
    rw [computeTotalPages, if_neg (by omega)]
    rfl

/-- Claim **C5**, witness: total 1234 with requested max 60 yields 42 pages, and
total 12 with requested max 60 yields 60. -/
theorem C5_total_pages_witness :
    computeTotalPages 1234 60 = 42 ∧ computeTotalPages 12 60 = 60 := by
  constructor
  · rw [C5_total_pages.1 1234 60 (by omega)]; decide
  · rw [C5_total_pages.2.2.2 60]; decide

/-- A long page whose prose mentions "security challenge" but which parses as
a real listing page (total count 1234). -/
def challengeHtml : String :=
  String.mk (List.replicate 500 'x')
    ++ " this prose mentions a security challenge only incidentally "

/-- Extraction oracle for `challengeHtml`: a real total-count header. -/
def challengeParse : String → Nat × List ListingCard := fun _ => (1234, [])

set_option maxRecDepth 40000 in
/-- Claim **C7**.  `is_blocked_page` returns true for markup shorter than 500
characters, and for markup whose lower-cased text contains one of the fixed
block phrases ("enable JavaScript", "captcha", the DataDome vendor marker);
and whenever the extraction collaborator reports a positive total count or a
non-empty card list, `looks_like_listing_page` overrides the detector, so the
combined classification `is_blocked_page html && !looks_like_listing_page html`
used by the orchestrator is not blocked — in particular for a long page whose
prose contains "security challenge". -/
theorem C7_block_detector :
    (∀ html : String, html.data.length < 500 → is_blocked_page html = true)
    ∧ (∀ html : String,
        containsSub (lowerChars "enable JavaScript".data) (lowerChars html.data) = true →
        is_blocked_page html = true)
    ∧ (∀ html : String,
        containsSub (lowerChars "captcha".data) (lowerChars html.data) = true →
        is_blocked_page html = true)
    ∧ (∀ html : String,
        containsSub (lowerChars "datadome".data) (lowerChars html.data) = true →
        is_blocked_page html = true)
    ∧ (∀ (parse : String → Nat × List ListingCard) (html : String),
        ((parse html).1 > 0 ∨ (parse html).2 ≠ []) →
        (is_blocked_page html && !looks_like_listing_page parse html) = false)
    ∧ (is_blocked_page challengeHtml = true
        ∧ looks_like_listing_page challengeParse challengeHtml = true
        ∧ (is_blocked_page challengeHtml
            && !looks_like_listing_page challengeParse challengeHtml) = false) := by
  have hind : ∀ (ind : String), ind ∈ blockIndicators → ∀ html : String,
      containsSub (lowerChars ind.data) (lowerChars html.data) = true →
      is_blocked_page html = true := by
    intro ind hmem html h
    unfold is_blocked_page
    by_cases hshort : (html.data.isEmpty || decide (html.data.length < 500)) = true
    · rw [if_pos hshort]
    · rw [if_neg hshort]
      exact List.any_eq_true.mpr ⟨ind, hmem, h⟩
  have hover : ∀ (parse : String → Nat × List ListingCard) (html : String),
      ((parse html).1 > 0 ∨ (parse html).2 ≠ []) →
      (is_blocked_page html && !looks_like_listing_page parse html) = false := by
    intro parse html h
    have hlook : looks_like_listing_page parse html = true := by
      unfold looks_like_listing_page
      rw [if_pos]
      rcases h with h | h
      · simp [h]
      · have : 0 < (parse html).2.length := List.length_pos.mpr h
        simp [this]
    rw [hlook]
    simp
  refine ⟨?_, hind "enable JavaScript" (by decide), hind "captcha" (by decide),
    hind "datadome" (by decide), hover, ?_, ?_, ?_⟩
  · intro html h
    unfold is_blocked_page
    rw [if_pos (by simp only [Bool.or_eq_true, decide_eq_true_eq]; exact Or.inr h)]
  · decide
  · decide
  · exact hover challengeParse challengeHtml (by decide)

/-- Claim **C7**, witness: the empty page is classified blocked. -/
theorem C7_block_detector_witness : is_blocked_page "" = true :=
  C7_block_detector.1 "" (by decide)

/-- Claim **C9**.  The run reports a fatal bootstrap error — with no records
emitted — exactly when page 1 after retries has a non-200 status, or has a
200 status with markup shorter than 12000 characters that the detector
classifies blocked and that does not look like a listing page; a 200 response
of length at least 12000 is treated as unblocked regardless of content. -/
theorem C9_bootstrap (env : FetchEnv) (base : String) (mp : Int) (fd : Bool)
    (seen : List String) :
    ((runWithFetcher env base mp fd seen).error.isSome = true ↔
      ((env.fetchPage1).2 ≠ 200 ∨
        ((env.fetchPage1).2 = 200 ∧ (env.fetchPage1).1.length < 12000 ∧
          is_blocked_page (env.fetchPage1).1 = true ∧
          looks_like_listing_page env.parseSearch (env.fetchPage1).1 = false)))
    ∧ ((runWithFetcher env base mp fd seen).error.isSome = true →
        (runWithFetcher env base mp fd seen).emitted = []) := by
  have hcond : ((env.fetchPage1).2 ≠ 200 ∨
      (¬ ((env.fetchPage1).2 = 200 ∧ (env.fetchPage1).1.length ≥ 12000) ∧
        is_blocked_page (env.fetchPage1).1 = true ∧
        looks_like_listing_page env.parseSearch (env.fetchPage1).1 = false)) ↔
      ((env.fetchPage1).2 ≠ 200 ∨
        ((env.fetchPage1).2 = 200 ∧ (env.fetchPage1).1.length < 12000 ∧
          is_blocked_page (env.fetchPage1).1 = true ∧
          looks_like_listing_page env.parseSearch (env.fetchPage1).1 = false)) := by
    constructor
    · rintro (h | ⟨hn, hb, hl⟩)
      · exact Or.inl h
      · by_cases hs : (env.fetchPage1).2 = 200
        · refine Or.inr ⟨hs, ?_, hb, hl⟩
          by_contra hge
          exact hn ⟨hs, by omega⟩
        · exact Or.inl hs
    · rintro (h | ⟨hs, hlt, hb, hl⟩)
      · exact Or.inl h
      · exact Or.inr ⟨fun hc => by omega, hb, hl⟩
  simp only [runWithFetcher]
  by_cases hb : ((env.fetchPage1).2 ≠ 200 ∨
      (¬ ((env.fetchPage1).2 = 200 ∧ (env.fetchPage1).1.length ≥ 12000) ∧
        is_blocked_page (env.fetchPage1).1 = true ∧
        looks_like_listing_page env.parseSearch (env.fetchPage1).1 = false))
  · rw [if_pos hb]
    exact ⟨by simpa using hcond.mp hb, fun _ => rfl⟩
  · rw [if_neg hb]
    have herr : ∀ {b : Bool} {A B : RunResult},
        A.error = none → B.error = none →
        (if b = false then A else B).error.isSome = false := by
      intro b A B hA hB
      split <;> simp [hA, hB]
    constructor
    · constructor
      · intro hsome
        rw [herr rfl rfl] at hsome
        exact absurd hsome (by simp)
      · intro hc
        exact absurd (hcond.mpr hc) hb
    · intro hsome
      rw [herr rfl rfl] at hsome
      exact absurd hsome (by simp)

/-- Environment for the C9 witness: page 1 returns status 404. -/
def c9Env : FetchEnv :=
  { fetchPage1 := ("", 404)
    fetchSearch := fun _ _ => ("", 0)
    fetchDetail := fun _ => ("", 0)
    parseSearch := fun _ => (0, [])
    parseDetail := fun _ _ => {} }

/-- Claim **C9**, witness: a 404 on page 1 raises the run-level error and emits no
records. -/
theorem C9_bootstrap_witness :
    (runWithFetcher c9Env "b" 60 false []).error.isSome = true
    ∧ (runWithFetcher c9Env "b" 60 false []).emitted = [] := by
  have h := C9_bootstrap c9Env "b" 60 false []
  have he : (runWithFetcher c9Env "b" 60 false []).error.isSome = true :=
    h.1.mpr (Or.inl (by decide))
  exact ⟨he, h.2 he⟩

/-- The listing card used in the C4 witness environment. -/
def c4Card : ListingCard :=
  { link := "https://www.idealista.com/en/inmueble/123/", title := "Piso" }

/-- Environment for the C4 witness: page 1 holds one card (listing 123). -/
def c4Env : FetchEnv :=
  { fetchPage1 := ("p1", 200)
    fetchSearch := fun _ _ => ("", 0)
    fetchDetail := fun _ => ("", 404)
    parseSearch := fun h => if h = "p1" then (1234, [c4Card]) else (0, [])
    parseDetail := fun _ _ => {} }

/-- Claim **C4**.  Every record the orchestrator emits (each emitted record is both
passed to the `on_record` callback and appended to the returned result list,
orchestrator.py:114-117, 135-137, 143-145) has a link whose canonicalization
is not a member of the caller-supplied seen-links set. -/
theorem C4_emitted_not_seen (env : FetchEnv) (base : String) (mp : Int)
    (fd : Bool) (seen : List String) :
    ∀ r ∈ (runWithFetcher env base mp fd seen).emitted,
      normalize_listing_link r.link ∉ seen := by
  simp only [runWithFetcher]
  split
  · intro r hr; simp at hr
  · split
    · intro r hr
      simp only [List.mem_map] at hr
      obtain ⟨c, hc, rfl⟩ := hr
      rw [cardOnlyRecord_link, normalize_listing_link_idem]
      exact (dedupeUnique_mem hc).2
    · refine runPages_results ?_
      split
      · refine processCards_results ?_ ?_
        · intro c hc
          exact (dedupeUnique_mem (List.mem_of_mem_filter hc)).2
        · intro r hr; simp at hr
      · intro r hr; simp at hr

/-- Claim **C4**, witness: in a run resuming from a seen set holding listing 999,
the emitted record for listing 123 canonicalizes outside that set. -/
theorem C4_emitted_not_seen_witness :
    normalize_listing_link (cardOnlyRecord c4Card
        "https://www.idealista.com/inmueble/123/").link
      ∉ ["https://www.idealista.com/inmueble/999/"] := by
  refine C4_emitted_not_seen c4Env "https://b" 60 false
    ["https://www.idealista.com/inmueble/999/"]
    (cardOnlyRecord c4Card "https://www.idealista.com/inmueble/123/") ?_
  decide

/-- Claim **C6**.  When a non-empty seen-links set is supplied (and the computed
total page count is at least one), the resume start page equals
`min(totalPages, |seen| / 30 + 1)`, and every search page fetched by the
pagination loop has a page number at least that start page (page 1's
bootstrap fetch precedes the resume computation and is a distinct event). -/
theorem C6_resume_start (env : FetchEnv) (base : String) (mp : Int) (fd : Bool)
    (seen : List String) (hne : seen ≠ [])
    (htp : 1 ≤ computeTotalPages ((env.parseSearch (env.fetchPage1).1).1) mp) :
    (computeStartPage
        (computeTotalPages ((env.parseSearch (env.fetchPage1).1).1) mp) seen
      = min (computeTotalPages ((env.parseSearch (env.fetchPage1).1).1) mp)
          ((seen.length : Int) / 30 + 1))
    ∧ ∀ q i, FetchEvent.searchFetch q i ∈ (runWithFetcher env base mp fd seen).trace →
        computeStartPage
          (computeTotalPages ((env.parseSearch (env.fetchPage1).1).1) mp) seen ≤ q := by
  constructor
  · unfold computeStartPage
    by_cases h1 :
        computeTotalPages ((env.parseSearch (env.fetchPage1).1).1) mp > 1
    · rw [if_pos ⟨hne, h1⟩]
    · rw [if_neg (by tauto)]
      omega
  · intro q i h
    simp only [runWithFetcher] at h
    split at h
    · simp at h
    · split at h
      · simp at h
      · have h2 := runPages_trace_cases h
        rcases h2 with h' | ⟨p, hp, hns, hk⟩
        · exfalso
          revert h'
          split
          · intro h'
            rcases processCards_trace_new h' with h4 | ⟨u, hu⟩
            · simp at h4
            · simp at hu
          · intro h'
            simp at h'
        · rcases hk with ⟨j, hj⟩ | ⟨u, hu⟩
          · have hqp : q = p := by injection hj
            omega
          · exact absurd hu (by simp)

/-- Seen-links set with 238 elements for the C6 witness. -/
def c6Seen : List String := (List.range 238).map fun i => toString i

/-- Environment for the C6 witness: page 1 parses to total 1234 (42 pages). -/
def c6Env : FetchEnv :=
  { fetchPage1 := ("p1", 200)
    fetchSearch := fun _ _ => ("", 0)
    fetchDetail := fun _ => ("", 0)
    parseSearch := fun h => if h = "p1" then (1234, []) else (0, [])
    parseDetail := fun _ _ => {} }

/-- Claim **C6**, witness: 238 seen links with 42 total pages resume at page 8. -/
theorem C6_resume_start_witness : computeStartPage 42 c6Seen = 8 := by
  have h := (C6_resume_start c6Env "https://b" 60 false c6Seen
    (by simp [c6Seen]) (by decide)).1
  have e1 : computeTotalPages ((c6Env.parseSearch (c6Env.fetchPage1).1).1) 60
      = 42 := by decide
  have e2 : ((c6Seen.length : Int)) = 238 := by simp [c6Seen]
  rw [e1, e2] at h
  rw [h]
  decide

/-! ### C8: consecutive-block stop -/

/-- Attempt `a` on search page `p` is "classified blocked": status 200, zero
parsed cards, and the detector flags the markup. -/
def blockedAttempt (env : FetchEnv) (p : Int) (a : Nat) : Prop :=
  (env.fetchSearch p a).2 = 200
    ∧ (env.parseSearch (env.fetchSearch p a).1).2 = []
    ∧ is_blocked_page (env.fetchSearch p a).1 = true

/-- Page `p` is blocked on both the first fetch and the retry-once fetch. -/
def blockedBoth (env : FetchEnv) (p : Int) : Prop :=
  blockedAttempt env p 0 ∧ blockedAttempt env p 1

theorem pageStep_blocked {env : FetchEnv} {seen : List String} {fl : Option String}
    {start : Int} {p : Int} (st : LoopState)
    (hb : blockedBoth env p) (hns : ¬ p < start) :
    (pageStep env seen fl start st p).1.trace
        = st.trace ++ [FetchEvent.searchFetch p 0, FetchEvent.searchFetch p 1]
    ∧ (pageStep env seen fl start st p).1.cb = st.cb + 1
    ∧ (pageStep env seen fl start st p).2 = decide (2 ≤ st.cb + 1) := by
  obtain ⟨⟨h00, h01, h02⟩, ⟨h10, h11, h12⟩⟩ := hb
  simp only [pageStep]
  rw [if_neg hns, if_neg (by simp [h00]), if_pos ⟨h01, h02⟩,
    if_neg (by simp [h10]), if_pos ⟨h11, h12⟩]
  refine ⟨?_, ?_, ?_⟩
  · split <;> simp
  · split <;> rfl
  · split
    case isTrue h => exact (decide_eq_true h).symm
    case isFalse h => exact (decide_eq_false h).symm

theorem searchLe_of_page {e : FetchEvent} {page bnd : Int}
    (hpage : page ≤ bnd)
    (hk : (∃ j, e = FetchEvent.searchFetch page j) ∨
      ∃ u, e = FetchEvent.detailFetch u) :
    ∀ q j, e = FetchEvent.searchFetch q j → q ≤ bnd := by
  intro q j hqj
  rcases hk with ⟨j', hj'⟩ | ⟨u, hu⟩
  · have := hj'.symm.trans hqj
    have hqp : page = q := by injection this
    omega
  · rw [hu] at hqj
    exact absurd hqj (by simp)

theorem mem_two_search {e : FetchEvent} {tr : List FetchEvent} {p bnd : Int}
    (hp : p ≤ bnd)
    (h : e ∈ tr ++ [FetchEvent.searchFetch p 0, FetchEvent.searchFetch p 1]) :
    e ∈ tr ∨ ∀ q j, e = FetchEvent.searchFetch q j → q ≤ bnd := by
  rcases List.mem_append.mp h with h' | h'
  · exact Or.inl h'
  · right
    refine searchLe_of_page hp (Or.inl ?_)
    rcases List.mem_cons.mp h' with he | h''
    · exact ⟨0, he⟩
    · exact ⟨1, List.mem_singleton.mp h''⟩

theorem runPages_blocked {env : FetchEnv} {seen : List String} {fl : Option String}
    {start : Int} {p : Int}
    (hbp : blockedBoth env p) (hbp1 : blockedBoth env (p + 1)) (hsp : start ≤ p) :
    ∀ (n : Nat) (a : Int) (st : LoopState),
      (a ≤ p ∨ (a = p + 1 ∧ 1 ≤ st.cb)) →
      ∀ e ∈ (runPages env seen fl start st (consecFrom a n)).trace,
        e ∈ st.trace ∨ ∀ q j, e = FetchEvent.searchFetch q j → q ≤ p + 1 := by
  intro n
  induction n with
  | zero =>
    intro a st _ e he
    exact Or.inl (by simpa [consecFrom, runPages] using he)
  | succ m ih =>
    intro a st hinv e he
    rw [consecFrom] at he
    simp only [runPages] at he
    by_cases hap1 : a = p + 1
    · subst hap1
      rcases hinv with ha | ⟨-, hcb⟩
      · exact absurd ha (by omega)
      · have hns : ¬ p + 1 < start := by omega
        obtain ⟨htr, hcb', hbr⟩ := pageStep_blocked st hbp1 hns
        have hstop : (pageStep env seen fl start st (p + 1)).2 = true := by
          rw [hbr]
          exact decide_eq_true (by omega)
        split at he
        · rw [htr] at he
          exact mem_two_search (by omega) he
        · exact absurd hstop (by assumption)
    · rcases hinv with ha | ⟨ha, -⟩
      · by_cases hap : a = p
        · subst hap
          have hns : ¬ a < start := by omega
          obtain ⟨htr, hcb', hbr⟩ := pageStep_blocked st hbp hns
          split at he
          · rw [htr] at he
            exact mem_two_search (by omega) he
          · have h2 := ih (a + 1) (pageStep env seen fl start st a).1
              (Or.inr ⟨rfl, by rw [hcb']; omega⟩) e he
            rcases h2 with h' | h'
            · rw [htr] at h'
              exact mem_two_search (by omega) h'
            · exact Or.inr h'
        · have halt : a < p := by omega
          split at he
          · rcases pageStep_trace_cases he with h' | ⟨-, hk⟩
            · exact Or.inl h'
            · exact Or.inr (searchLe_of_page (by omega) hk)
          · have h2 := ih (a + 1) (pageStep env seen fl start st a).1
              (Or.inl (by omega)) e he
            rcases h2 with h' | h'
            · rcases pageStep_trace_cases h' with h'' | ⟨-, hk⟩
              · exact Or.inl h''
              · exact Or.inr (searchLe_of_page (by omega) hk)
            · exact Or.inr h'
      · exact absurd ha hap1

/-- Environment for C8's continuation scenario: page 2 blocked on both
attempts, page 3 a transport failure, page 4 blocked on both attempts,
page 5 a normal page with one card, pages 6+ transport failures. -/
def c8Card1 : ListingCard :=
  { link := "https://www.idealista.com/inmueble/111/", title := "A" }

def c8Card5 : ListingCard :=
  { link := "https://www.idealista.com/inmueble/555/", title := "B" }

def c8Env : FetchEnv :=
  { fetchPage1 := ("p1", 200)
    fetchSearch := fun p _ =>
      if p = 3 then ("", 0)
      else if p = 2 ∨ p = 4 then ("", 200)
      else if p = 5 then ("p5", 200)
      else ("", 0)
    fetchDetail := fun _ => ("", 404)
    parseSearch := fun h =>
      if h = "p1" then (1234, [c8Card1])
      else if h = "p5" then (0, [c8Card5])
      else (0, [])
    parseDetail := fun _ _ => {} }

/-- Claim **C8**.  Whenever two consecutive pages `p` and `p + 1` (within the
pagination range, at or past the resume point) are classified blocked after
their single retry, pagination halts: no search page beyond `p + 1` is ever
fetched.  And a transport failure resets the consecutive-block counter: in
the `c8Env` scenario — page 2 blocked-after-retry, page 3 a transport
failure, page 4 blocked-after-retry — pagination continues and page 5 is
still fetched. -/
theorem C8_consecutive_block :
    (∀ (env : FetchEnv) (base : String) (mp : Int) (fd : Bool)
       (seen : List String) (p : Int),
      blockedBoth env p → blockedBoth env (p + 1) → 2 ≤ p →
      computeStartPage
        (computeTotalPages ((env.parseSearch (env.fetchPage1).1).1) mp) seen ≤ p →
      ∀ e ∈ (runWithFetcher env base mp fd seen).trace, ∀ q j,
        e = FetchEvent.searchFetch q j → q ≤ p + 1)
    ∧ FetchEvent.searchFetch 5 0 ∈ (runWithFetcher c8Env "https://b" 60 true []).trace := by
  constructor
  · intro env base mp fd seen p hbp hbp1 hp2 hsp e he q j hqj
    simp only [runWithFetcher] at he
    split at he
    · subst hqj; simp at he
    · split at he
      · subst hqj; simp at he
      · rw [pythonRange_eq_consecFrom] at he
        have hrb := runPages_blocked hbp hbp1 hsp _ 2 _ (Or.inl hp2) e he
        rcases hrb with h' | h'
        · subst hqj
          exfalso
          revert h'
          split
          · intro h'
            rcases processCards_trace_new h' with h4 | ⟨u, hu⟩
            · simp at h4
            · simp at hu
          · intro h'
            simp at h'
        · exact h' q j hqj
  · decide

/-- Environment for the C8 witness: every search page is blocked on both
attempts. -/
def c8StopEnv : FetchEnv :=
  { fetchPage1 := ("p1", 200)
    fetchSearch := fun _ _ => ("", 200)
    fetchDetail := fun _ => ("", 404)
    parseSearch := fun h => if h = "p1" then (1234, []) else (0, [])
    parseDetail := fun _ _ => {} }

/-- Claim **C8**, witness: with pages 2 and 3 blocked after retry, the fetched
search page 2 indeed satisfies the halting bound `q ≤ p + 1`. -/
theorem C8_consecutive_block_witness : (2 : Int) ≤ 2 + 1 :=
  C8_consecutive_block.1 c8StopEnv "https://b" 60 true [] 2
    ⟨⟨by decide, by decide, by decide⟩, ⟨by decide, by decide, by decide⟩⟩
    ⟨⟨by decide, by decide, by decide⟩, ⟨by decide, by decide, by decide⟩⟩
    (by decide) (by decide)
    (FetchEvent.searchFetch 2 0) (by decide) 2 0 rfl

/-- The single listing card parsed from page 1 in the C1 environment. -/
def c1Card : ListingCard :=
  { link := "https://www.idealista.com/en/inmueble/123/", title := "Piso" }

/-- Environment for C1: page 1 is a normal 200 listing page with parsed total
1234 (42 pages); every later search page would answer 200 with cards, and
every detail fetch would succeed — yet none of them is ever requested. -/
def c1Env : FetchEnv :=
  { fetchPage1 := ("p1", 200)
    fetchSearch := fun _ _ => ("pN", 200)
    fetchDetail := fun _ => ("d", 200)
    parseSearch := fun h => if h = "p1" then (1234, [c1Card]) else (0, [])
    parseDetail := fun _ _ => {} }

/-- Claim **C1**.  With `fetch_details = False` and a computed total of 42 pages,
the run performs only the page-1 fetch — no `pagina-N` search page is ever
fetched — and emits exactly page 1's deduplicated cards as card-only records,
contradicting the claim that pages `2..totalPages` are fetched and their
cards emitted regardless of the `fetch_details` flag. -/
theorem C1_pagination_skipped :
    computeTotalPages 1234 60 = 42
    ∧ (runWithFetcher c1Env "https://b" 60 false []).trace
        = [FetchEvent.page1Fetch "https://b/"]
    ∧ (runWithFetcher c1Env "https://b" 60 false []).emitted
        = [cardOnlyRecord c1Card "https://www.idealista.com/inmueble/123/"] := by
  refine ⟨by decide, by decide, by decide⟩

end Sevilla
